import Mathlib

/-!
Shallow embedding of the yield-curve deformation simulator core
(`src/curve.py`, `src/bond.py`): the `YieldCurve` data model with linear and
natural-cubic-spline interpolation, the five shock transforms, the
discounted-cash-flow bond pricer, and the finite-difference risk engine.
Floating-point arithmetic is idealised as exact real arithmetic; Python
`round` (banker's rounding) is modelled exactly on rationals.
-/

namespace YieldSim

/-- Interpolation method of a curve (`method: "linear" or "cubic"`). -/
inductive Method
  | linear
  | cubic
deriving DecidableEq, Repr

/-- The `YieldCurve` dataclass: tenor labels, node maturities in years,
node yields in decimals, and the interpolation method. -/
structure YieldCurve where
  tenors : List String
  maturities : List ℝ
  yields : List ℝ
  method : Method

/-- Validation errors raised by `YieldCurve.__post_init__`: its own two
checks, plus the error `scipy.interpolate.CubicSpline` raises when the
eager cubic fit is given fewer than 2 node points. -/
inductive CurveError
  | dimensionMismatch
  | nonMonotonicMaturities
  | cubicTooFewNodes
deriving DecidableEq, Repr

/-- `YieldCurve.__post_init__`: raises if `len(maturities) != len(yields)`,
then if `np.any(np.diff(maturities) <= 0)` (maturities not strictly
increasing); tenors are not validated. For `method == "cubic"` it then
eagerly fits `CubicSpline(maturities, yields, bc_type="natural")`, which
raises when given fewer than 2 points (its strict-increase requirement is
already guaranteed by the earlier check). -/
noncomputable def mkYieldCurve (tenors : List String) (maturities yields : List ℝ)
    (method : Method) : Except CurveError YieldCurve :=
  if maturities.length ≠ yields.length then .error .dimensionMismatch
  else if ¬ maturities.Chain' (· < ·) then .error .nonMonotonicMaturities
  else if method = .cubic ∧ maturities.length < 2 then .error .cubicTooFewNodes
  else .ok ⟨tenors, maturities, yields, method⟩

/-- `maturities[-1]` (last element, with a junk default on the empty list,
mirroring that Python would raise there). -/
noncomputable def npLast (l : List ℝ) : ℝ :=
  l.getLast?.getD 0

/-- `np.interp(t, xs, ys)` on the zipped node list: piecewise-linear
interpolation with flat fill at the ends. -/
noncomputable def interpPts : List (ℝ × ℝ) → ℝ → ℝ
  | [], _ => 0
  | [(_, y1)], _ => y1
  | (x1, y1) :: (x2, y2) :: rest, t =>
    if t ≤ x1 then y1
    else if t ≤ x2 then y1 + (y2 - y1) * (t - x1) / (x2 - x1)
    else interpPts ((x2, y2) :: rest) t

/-- Sub-diagonal, diagonal and super-diagonal coefficients of the interior
equations of the natural-cubic-spline system: for each interior node the
triple `(h_i, 2 (h_i + h_of_next), h_of_next)`. -/
noncomputable def interiorCoeffs : List (ℝ × ℝ) → List (ℝ × ℝ × ℝ)
  | (x0, _) :: (x1, y1) :: (x2, y2) :: rest =>
    (x1 - x0, 2 * (x2 - x0), x2 - x1) :: interiorCoeffs ((x1, y1) :: (x2, y2) :: rest)
  | _ => []

/-- Right-hand side of the interior equations of the natural-spline system:
six times the second divided difference at each interior node. -/
noncomputable def interiorRhs : List (ℝ × ℝ) → List ℝ
  | (x0, y0) :: (x1, y1) :: (x2, y2) :: rest =>
    6 * ((y2 - y1) / (x2 - x1) - (y1 - y0) / (x1 - x0))
      :: interiorRhs ((x1, y1) :: (x2, y2) :: rest)
  | _ => []

/-- Forward sweep of the Thomas tridiagonal solver. -/
noncomputable def thomasFwd : List ((ℝ × ℝ × ℝ) × ℝ) → ℝ → ℝ → List (ℝ × ℝ)
  | [], _, _ => []
  | ((a, b, cc), d) :: rest, cp, dp =>
    let denom := b - a * cp
    let cp2 := cc / denom
    let dp2 := (d - a * dp) / denom
    (cp2, dp2) :: thomasFwd rest cp2 dp2

/-- Back substitution of the Thomas solver, on the reversed sweep output. -/
noncomputable def thomasBackRev : List (ℝ × ℝ) → ℝ → List ℝ
  | [], _ => []
  | (cp, dp) :: rest, xnext =>
    let xi := dp - cp * xnext
    xi :: thomasBackRev rest xi

/-- Solve a tridiagonal system given as a list of (coefficients, rhs) rows. -/
noncomputable def thomasSolve (eqns : List ((ℝ × ℝ × ℝ) × ℝ)) : List ℝ :=
  (thomasBackRev (thomasFwd eqns 0 0).reverse 0).reverse

/-- Second derivatives of the natural cubic spline through the nodes
(`scipy.interpolate.CubicSpline(..., bc_type="natural")`): zero at both end
nodes, interior values from the tridiagonal system. -/
noncomputable def splineM (pts : List (ℝ × ℝ)) : List ℝ :=
  0 :: thomasSolve ((interiorCoeffs pts).zip (interiorRhs pts)) ++ [0]

/-- Evaluate the natural cubic spline given nodes paired with their second
derivatives, by locating the bracketing segment. -/
noncomputable def splineEvalSeg : List ((ℝ × ℝ) × ℝ) → ℝ → ℝ
  | [], _ => 0
  | [((_, y1), _)], _ => y1
  | ((x1, y1), m1) :: ((x2, y2), m2) :: rest, t =>
    if t ≤ x2 then
      let h := x2 - x1
      m1 * (x2 - t) ^ 3 / (6 * h) + m2 * (t - x1) ^ 3 / (6 * h)
        + (y1 - m1 * h ^ 2 / 6) * (x2 - t) / h
        + (y2 - m2 * h ^ 2 / 6) * (t - x1) / h
    else splineEvalSeg (((x2, y2), m2) :: rest) t

/-- `YieldCurve.y(t)`: clamp `t` to `[maturities[0], maturities[-1]]`, then
evaluate the linear interpolant or the fitted natural cubic spline. -/
noncomputable def YieldCurve.y (c : YieldCurve) (t : ℝ) : ℝ :=
  let tc := min (max t c.maturities.headI) (npLast c.maturities)
  match c.method with
  | .linear => interpPts (c.maturities.zip c.yields) tc
  | .cubic =>
    splineEvalSeg ((c.maturities.zip c.yields).zip (splineM (c.maturities.zip c.yields))) tc

/-- `bp_to_decimal`: 1 bp = 0.0001 in decimal yield terms. -/
noncomputable def bpToDecimal (bp : ℝ) : ℝ :=
  bp / 10000

/-- `shock_parallel`: add `bp/10000` to every node yield. -/
noncomputable def shockParallel (c : YieldCurve) (bp : ℝ) : YieldCurve :=
  ⟨c.tenors, c.maturities, c.yields.map (fun yi => yi + bpToDecimal bp), c.method⟩

/-- Per-node ramp weight `(m - maturities[0]) / (maturities[-1] - maturities[0])`. -/
noncomputable def rampWeights (c : YieldCurve) : List ℝ :=
  c.maturities.map (fun m => (m - c.maturities.headI) / (npLast c.maturities - c.maturities.headI))

/-- `shock_steepen`: yields plus `bump` times the ramp weight. -/
noncomputable def shockSteepen (c : YieldCurve) (bp : ℝ) : YieldCurve :=
  ⟨c.tenors, c.maturities,
    List.zipWith (fun yi wi => yi + bpToDecimal bp * wi) c.yields (rampWeights c), c.method⟩

/-- `shock_flatten`: yields minus `bump` times the ramp weight. -/
noncomputable def shockFlatten (c : YieldCurve) (bp : ℝ) : YieldCurve :=
  ⟨c.tenors, c.maturities,
    List.zipWith (fun yi wi => yi - bpToDecimal bp * wi) c.yields (rampWeights c), c.method⟩

/-- `shock_twist`: weights `1 - 2*w01`, negated when `short_up` is false. -/
noncomputable def shockTwist (c : YieldCurve) (bp : ℝ) (shortUp : Bool) : YieldCurve :=
  let w := (rampWeights c).map (fun x => 1 - 2 * x)
  let w2 := if shortUp then w else w.map (fun x => -x)
  ⟨c.tenors, c.maturities,
    List.zipWith (fun yi wi => yi + bpToDecimal bp * wi) c.yields w2, c.method⟩

/-- `np.max` of a list (junk default on the empty array, where numpy raises). -/
noncomputable def npMax : List ℝ → ℝ
  | [] => 0
  | x :: xs => xs.foldl max x

/-- Arithmetic mean of a list (`np.mean`). -/
noncomputable def mean (l : List ℝ) : ℝ :=
  l.sum / l.length

/-- `shock_butterfly`: bell weights at the nodes, normalized to peak 1,
re-centered to zero mean, scaled by `bump` and added to the yields. -/
noncomputable def shockButterfly (c : YieldCurve) (bp : ℝ) : YieldCurve :=
  let mid := (c.maturities.headI + npLast c.maturities) / 2
  let span := npLast c.maturities - c.maturities.headI
  let w0 := c.maturities.map (fun m => Real.exp (-((m - mid) ^ 2) / (0.15 * span) ^ 2))
  let w1 := w0.map (fun x => x / npMax w0)
  let w2 := w1.map (fun x => x - mean w1)
  ⟨c.tenors, c.maturities,
    List.zipWith (fun yi wi => yi + bpToDecimal bp * wi) c.yields w2, c.method⟩

/-- Python `str.lower()`: lower-case every character. -/
def strLower (s : String) : String :=
  ⟨s.data.map Char.toLower⟩

/-- Python `str.strip()`: drop whitespace from both ends. -/
def strStrip (s : String) : String :=
  ⟨((s.data.dropWhile Char.isWhitespace).reverse.dropWhile Char.isWhitespace).reverse⟩

/-- `apply_shock`: dispatch on the lower-cased, stripped shock name;
`none` models the `ValueError` for an unknown name. -/
noncomputable def applyShock (c : YieldCurve) (shockType : String) (bp : ℝ)
    (twistShortUp : Bool) : Option YieldCurve :=
  let s := strStrip (strLower shockType)
  if s = "parallel" then some (shockParallel c bp)
  else if s = "steepen" then some (shockSteepen c bp)
  else if s = "flatten" then some (shockFlatten c bp)
  else if s = "twist" then some (shockTwist c bp twistShortUp)
  else if s = "butterfly" then some (shockButterfly c bp)
  else none

/-- Python 3 `round` to an integer: round half to even (banker's rounding),
modelled exactly on rationals. -/
def pyround (q : ℚ) : ℤ :=
  let f := ⌊q⌋
  let r := q - f
  if r < 1 / 2 then f
  else if 1 / 2 < r then f + 1
  else if f % 2 = 0 then f else f + 1

/-- The `Bond` dataclass. Maturity is kept rational (every float is), so the
cash-flow count is an exact integer computation. -/
structure Bond where
  face : ℝ := 100
  coupon_rate : ℝ := 0.05
  maturity_years : ℚ := 5
  freq : ℕ := 2

/-- Number of cash flows: `n = int(round(maturity_years * freq))`. -/
def cashflowCount (b : Bond) : ℤ :=
  pyround (b.maturity_years * b.freq)

/-- Cash-flow time of the `i`-th coupon, `(i+1)/freq` years. -/
def cashflowTime (b : Bond) (i : ℕ) : ℚ :=
  ((i : ℚ) + 1) / (b.freq : ℚ)

/-- Cash-flow times `[(i+1)/freq for i in range(n)]`. -/
def cashflowTimes (b : Bond) : List ℚ :=
  (List.range (cashflowCount b).toNat).map (cashflowTime b)

/-- `price_bond`: `none` models the `ValueError` when `n <= 0`; otherwise the
sum of cash flows (level coupons, principal added to the last) times the
annual-compounding discount factors at the curve yield for each time. -/
noncomputable def priceBond (c : YieldCurve) (b : Bond) : Option ℝ :=
  if cashflowCount b ≤ 0 then none
  else
    let N := (cashflowCount b).toNat
    let coupon : ℝ := b.face * b.coupon_rate / b.freq
    let cfs : List ℝ := (List.replicate N coupon).set (N - 1) (coupon + b.face)
    let dfs : List ℝ :=
      (cashflowTimes b).map (fun t : ℚ => 1 / (1 + c.y (t : ℝ)) ^ ((t : ℚ) : ℝ))
    some (List.zipWith (fun cf df => cf * df) cfs dfs).sum

/-- The fixed-key risk mapping returned by `dv01_duration_convexity`
(keys `price`, `price_up_+bp`, `price_dn_-bp`, `DV01_per_1bp`,
`mod_duration`, `convexity`). -/
structure RiskResult where
  price : ℝ
  price_up : ℝ
  price_dn : ℝ
  dv01 : ℝ
  mod_duration : ℝ
  convexity : ℝ

/-- `dv01_duration_convexity`: central finite differences from the base price
and the prices against the ±bp parallel-shocked curves. -/
noncomputable def dv01DurationConvexity (c : YieldCurve) (b : Bond) (bp : ℝ) :
    Option RiskResult :=
  let dy := bpToDecimal bp
  (priceBond c b).bind fun p0 =>
    (priceBond (shockParallel c bp) b).bind fun pUp =>
      (priceBond (shockParallel c (-bp)) b).map fun pDn =>
        { price := p0
          price_up := pUp
          price_dn := pDn
          dv01 := (pDn - pUp) / 2
          mod_duration := (pDn - pUp) / (2 * p0 * dy)
          convexity := (pDn + pUp - 2 * p0) / (p0 * dy ^ 2) }

/-! ## Helper lemmas -/

lemma getLast?_range_map {α : Type} (f : ℕ → α) (N : ℕ) (h : N ≠ 0) :
    ((List.range N).map f).getLast? = some (f (N - 1)) := by
  obtain ⟨n, rfl⟩ := Nat.exists_eq_succ_of_ne_zero h
  simp [List.range_succ]

lemma replicate_set_last (c v : ℝ) :
    ∀ N, 1 ≤ N → (List.replicate N c).set (N - 1) v = List.replicate (N - 1) c ++ [v] := by
  intro N
  induction N with
  | zero => omega
  | succ n ih =>
    intro _
    cases n with
    | zero => simp
    | succ m =>
      have hm := ih (by omega)
      simp only [Nat.succ_sub_one] at hm ⊢
      rw [List.replicate_succ, List.set]
      rw [hm, List.replicate_succ, List.cons_append]

lemma zipWith_replicate_map (f : ℝ → ℝ → ℝ) (a : ℝ) :
    ∀ (l : List ℝ) (m : ℕ), l.length ≤ m →
      List.zipWith f (List.replicate m a) l = l.map (f a) := by
  intro l
  induction l with
  | nil => intro m _; simp
  | cons x xs ih =>
    intro m hm
    cases m with
    | zero => simp at hm
    | succ k =>
      rw [List.replicate_succ, List.zipWith_cons_cons, List.map_cons,
        ih k (by simpa using hm)]

lemma sum_zip_cfs (N : ℕ) (hN : 1 ≤ N) (c v : ℝ) (g : ℕ → ℝ) :
    (List.zipWith (fun cf df => cf * df) ((List.replicate N c).set (N - 1) v)
        ((List.range N).map g)).sum
      = ∑ i in Finset.range N, (if i = N - 1 then v else c) * g i := by
  obtain ⟨n, rfl⟩ : ∃ n, N = n + 1 := ⟨N - 1, by omega⟩
  rw [replicate_set_last c v (n + 1) (by omega)]
  simp only [Nat.add_sub_cancel]
  rw [List.range_succ, List.map_append]
  rw [List.zipWith_append _ _ _ _ _ (by simp)]
  rw [List.sum_append, zipWith_replicate_map _ c _ n (by simp)]
  rw [Finset.sum_range_succ, if_pos rfl]
  congr 1
  · rw [List.map_map]
    have hl : ((List.range n).map (fun i => c * g i)).sum
        = ∑ i in Finset.range n, c * g i := rfl
    have hc : (fun df => c * df) ∘ g = fun i => c * g i := rfl
    rw [hc, hl]
    refine Finset.sum_congr rfl (fun i hi => ?_)
    rw [if_neg]
    have := Finset.mem_range.mp hi
    omega
  · simp

/-- For a bond with at least one cash flow, `price_bond` returns the closed
sum described in the spec: level coupons with the face added to the last
cash flow, each discounted at `1/(1 + y(t_i))^(t_i)`. -/
lemma priceBond_eq (c : YieldCurve) (b : Bond) (h : 1 ≤ cashflowCount b) :
    priceBond c b = some (∑ i in Finset.range (cashflowCount b).toNat,
      (if i = (cashflowCount b).toNat - 1
        then b.face * b.coupon_rate / b.freq + b.face
        else b.face * b.coupon_rate / b.freq)
      * (1 / (1 + c.y ((cashflowTime b i : ℚ) : ℝ)) ^ ((cashflowTime b i : ℚ) : ℝ))) := by
  have hc : ¬ cashflowCount b ≤ 0 := by omega
  rw [priceBond, if_neg hc]
  simp only []
  congr 1
  rw [cashflowTimes, List.map_map]
  exact sum_zip_cfs (cashflowCount b).toNat (by omega)
    (b.face * b.coupon_rate / b.freq) (b.face * b.coupon_rate / b.freq + b.face)
    (fun i => 1 / (1 + c.y ((cashflowTime b i : ℚ) : ℝ)) ^ ((cashflowTime b i : ℚ) : ℝ))

/-- A two-node sample curve used to instantiate universally quantified
theorems at a concrete input. -/
noncomputable def wCurve : YieldCurve :=
  ⟨["1Y", "2Y"], [1, 2], [3 / 100, 7 / 200], .linear⟩

/-- A one-node sample curve. -/
noncomputable def singleNodeCurve : YieldCurve :=
  ⟨["1Y"], [1], [1 / 25], .linear⟩

/-- Whether `price_bond` succeeds depends only on the bond, not the curve. -/
lemma priceBond_some (c' c : YieldCurve) (b : Bond) (p : ℝ)
    (h : priceBond c b = some p) : ∃ q, priceBond c' b = some q := by
  by_cases hc : cashflowCount b ≤ 0
  · rw [priceBond, if_pos hc] at h
    exact Option.noConfusion h
  · exact ⟨_, priceBond_eq c' b (by omega)⟩

/-- A 5-year semiannual 5% coupon bond (its maturity sits on the coupon grid). -/
noncomputable def bondOnGrid : Bond :=
  { face := 100, coupon_rate := 1 / 20, maturity_years := 5, freq := 2 }

/-- A one-year zero-coupon bond with a single annual cash flow. -/
noncomputable def bondZero : Bond :=
  { face := 100, coupon_rate := 0, maturity_years := 1, freq := 1 }

/-! ## Claim theorems -/

/-- C5: `applyShock(curve, "parallel", bp)` returns a new curve with the same
tenors, maturities and method, and every node yield shifted by `bp/10000`
(the input value itself is untouched: all transforms are pure). -/
theorem applyShock_parallel_additive (c : YieldCurve) (bp : ℝ) :
    applyShock c "parallel" bp true
        = some ⟨c.tenors, c.maturities,
            c.yields.map (fun yi => yi + bp / 10000), c.method⟩ ∧
    ∀ i, i < c.yields.length →
      (shockParallel c bp).yields.getD i 0 = c.yields.getD i 0 + bp / 10000 := by
  constructor
  · have hs : strStrip (strLower "parallel") = "parallel" := by decide
    simp [applyShock, hs, shockParallel, bpToDecimal]
  · intro i hi
    simp [shockParallel, bpToDecimal, List.getD_map, hi, List.getD_eq_getElem]

/-- C5 witness: the parallel-shift property evaluated on a concrete
two-node curve at node 0. -/
theorem applyShock_parallel_additive_witness :
    0 < wCurve.yields.length ∧
    (shockParallel wCurve 25).yields.getD 0 0 = wCurve.yields.getD 0 0 + 25 / 10000 :=
  ⟨by simp [wCurve], (applyShock_parallel_additive wCurve 25).2 0 (by simp [wCurve])⟩

/-- C8 counterexample: a curve whose tenors list is shorter than its
maturities/yields lists constructs successfully, so construction does not
fail on every violation of the three-way length invariant. -/
theorem construction_tenors_unchecked_cex :
    mkYieldCurve ["1Y"] [1, 2] [1 / 100, 1 / 50] .linear
        = .ok ⟨["1Y"], [1, 2], [1 / 100, 1 / 50], .linear⟩ ∧
    (["1Y"] : List String).length ≠ ([1, 2] : List ℝ).length := by
  constructor
  · have h2 : List.Chain' (· < ·) ([1, 2] : List ℝ) := by
      norm_num [List.chain'_cons]
    simp [mkYieldCurve, h2]
  · simp

/-- C8 amended: construction succeeds, returning exactly the given fields
(never sorting), if and only if `len(maturities) == len(yields)`, the
maturities are strictly increasing, and — because the cubic method eagerly
fits a natural spline that needs at least two points — the method is not
cubic with fewer than 2 nodes; otherwise it fails with a validation error.
The tenors length is not validated. -/
theorem construction_validation_amended (tenors : List String) (m ys : List ℝ)
    (meth : Method) :
    (mkYieldCurve tenors m ys meth = .ok ⟨tenors, m, ys, meth⟩
        ↔ (m.length = ys.length ∧ m.Chain' (· < ·) ∧
            (meth = .cubic → 2 ≤ m.length))) ∧
    ((∃ e, mkYieldCurve tenors m ys meth = .error e)
        ↔ ¬ (m.length = ys.length ∧ m.Chain' (· < ·) ∧
            (meth = .cubic → 2 ≤ m.length))) := by
  have hok : mkYieldCurve tenors m ys meth = .ok ⟨tenors, m, ys, meth⟩
      ↔ (m.length = ys.length ∧ m.Chain' (· < ·) ∧
          (meth = .cubic → 2 ≤ m.length)) := by
    by_cases h1 : m.length ≠ ys.length
    · rw [mkYieldCurve, if_pos h1]
      simp [h1]
    · rw [mkYieldCurve, if_neg h1]
      by_cases h2 : ¬ m.Chain' (· < ·)
      · rw [if_pos h2]
        simp [h2]
      · rw [if_neg h2]
        push_neg at h2
        by_cases h3 : meth = .cubic ∧ m.length < 2
        · rw [if_pos h3]
          constructor
          · intro h
            exact Except.noConfusion h
          · rintro ⟨_, _, himp⟩
            exact absurd (himp h3.1) (by omega)
        · rw [if_neg h3]
          constructor
          · intro _
            refine ⟨not_ne_iff.mp h1, h2, fun hcu => ?_⟩
            by_contra hlt
            exact h3 ⟨hcu, by omega⟩
          · intro _
            rfl
  have hshape : (∃ e, mkYieldCurve tenors m ys meth = .error e) ∨
      mkYieldCurve tenors m ys meth = .ok ⟨tenors, m, ys, meth⟩ := by
    rw [mkYieldCurve]
    split_ifs <;> simp
  refine ⟨hok, ?_, ?_⟩
  · rintro ⟨e, he⟩ hRHS
    have := (hok.mpr hRHS).symm.trans he
    exact Except.noConfusion this
  · intro hRHS
    rcases hshape with h | h
    · exact h
    · exact absurd (hok.mp h) hRHS

/-- C9 counterexample: every span-requiring shock applied to a single-node
curve returns a curve instead of failing. -/
theorem span_shock_single_node_no_error_cex :
    (applyShock singleNodeCurve "steepen" 10 true).isSome = true ∧
    (applyShock singleNodeCurve "flatten" 10 true).isSome = true ∧
    (applyShock singleNodeCurve "twist" 10 true).isSome = true ∧
    (applyShock singleNodeCurve "butterfly" 10 true).isSome = true := by
  have h1 : strStrip (strLower "steepen") = "steepen" := by decide
  have h2 : strStrip (strLower "flatten") = "flatten" := by decide
  have h3 : strStrip (strLower "twist") = "twist" := by decide
  have h4 : strStrip (strLower "butterfly") = "butterfly" := by decide
  refine ⟨?_, ?_, ?_, ?_⟩ <;> simp [applyShock, h1, h2, h3, h4]

/-- C9 amended: the span-requiring shocks perform no degenerate-span check:
for every curve (single-node included) and any `bp`, `apply_shock` returns
the transformed curve rather than an error (on a single-node curve the
floating-point code divides by a zero span, yielding NaN node yields). -/
theorem span_shocks_never_fail (c : YieldCurve) (bp : ℝ) (up : Bool) :
    applyShock c "steepen" bp up = some (shockSteepen c bp) ∧
    applyShock c "flatten" bp up = some (shockFlatten c bp) ∧
    applyShock c "twist" bp up = some (shockTwist c bp up) ∧
    applyShock c "butterfly" bp up = some (shockButterfly c bp) := by
  have h1 : strStrip (strLower "steepen") = "steepen" := by decide
  have h2 : strStrip (strLower "flatten") = "flatten" := by decide
  have h3 : strStrip (strLower "twist") = "twist" := by decide
  have h4 : strStrip (strLower "butterfly") = "butterfly" := by decide
  refine ⟨?_, ?_, ?_, ?_⟩ <;> simp [applyShock, h1, h2, h3, h4]

/-- A bond whose maturity does not sit on the semiannual coupon grid. -/
noncomputable def bondOffGrid : Bond :=
  { face := 100, coupon_rate := 1 / 20, maturity_years := 51 / 10, freq := 2 }

/-- C10 counterexample: for a 5.1-year semiannual bond, `n = round(10.2) = 10`
cash flows are generated and the last cash-flow time is `10/2 = 5`, not the
bond's `maturity_years = 5.1`. -/
theorem last_time_off_grid_cex :
    1 ≤ cashflowCount bondOffGrid ∧
    (cashflowTimes bondOffGrid).getLast? = some 5 ∧
    bondOffGrid.maturity_years ≠ 5 := by
  have hc : cashflowCount bondOffGrid = 10 := by
    norm_num [cashflowCount, bondOffGrid, pyround]
  refine ⟨by norm_num [hc], ?_, by norm_num [bondOffGrid]⟩
  rw [cashflowTimes, hc]
  rw [getLast?_range_map _ _ (by norm_num : ((10 : ℤ).toNat ≠ 0))]
  have h10 : (10 : ℤ).toNat = (10 : ℕ) := rfl
  norm_num [bondOffGrid, h10, cashflowTime]

/-- C10 amended: when `maturity_years * freq` is an integer (the maturity sits
on the coupon grid) and the bond is well-formed, the last cash-flow time
`n/freq` equals `maturity_years` exactly; off the grid it is `round(...)/freq`,
which can differ. -/
theorem last_time_on_grid_exact (b : Bond) (hm : 0 < b.maturity_years)
    (hf : 1 ≤ b.freq) (k : ℤ) (hk : b.maturity_years * b.freq = k) :
    (cashflowTimes b).getLast? = some b.maturity_years := by
  have hk1 : 1 ≤ k := by
    have h0 : (0 : ℚ) < k := by
      rw [← hk]
      have : (0 : ℚ) < (b.freq : ℚ) := by
        exact_mod_cast Nat.lt_of_lt_of_le Nat.zero_lt_one hf
      positivity
    exact_mod_cast h0
  have hcount : cashflowCount b = k := by
    rw [cashflowCount, hk]
    rw [pyround]
    simp [Int.floor_intCast]
  have hNne : (cashflowCount b).toNat ≠ 0 := by
    rw [hcount]
    omega
  rw [cashflowTimes, getLast?_range_map _ _ hNne]
  have hfreq0 : (b.freq : ℚ) ≠ 0 := by
    have hpos : (0 : ℚ) < (b.freq : ℚ) := by
      exact_mod_cast Nat.lt_of_lt_of_le Nat.zero_lt_one hf
    exact ne_of_gt hpos
  have hge1 : 1 ≤ (cashflowCount b).toNat := by
    rw [hcount]
    omega
  have hcast : (((cashflowCount b).toNat - 1 : ℕ) : ℚ) + 1 = (k : ℚ) := by
    have h1 : ((cashflowCount b).toNat : ℚ) = (k : ℚ) := by
      have : ((cashflowCount b).toNat : ℤ) = k := by
        rw [hcount]
        omega
      exact_mod_cast this
    rw [← h1, Nat.cast_sub hge1]
    ring
  congr 1
  rw [cashflowTime, hcast, div_eq_iff hfreq0, ← hk]

/-- C1: `price_bond` fails exactly when `n = round(maturity_years*freq) < 1`;
otherwise it returns the sum over `i = 0..n-1` of cash flow times discount
factor, where every cash flow is `face*coupon_rate/freq` except the last,
which adds `face`, and each discount factor is `1/(1+y(t_i))^(t_i)` at the
flow's own interpolated yield (not a flat yield). -/
theorem priceBond_spec (c : YieldCurve) (b : Bond) :
    (priceBond c b = none ↔ cashflowCount b < 1) ∧
    (1 ≤ cashflowCount b →
      priceBond c b = some (∑ i in Finset.range (cashflowCount b).toNat,
        (if i = (cashflowCount b).toNat - 1
          then b.face * b.coupon_rate / b.freq + b.face
          else b.face * b.coupon_rate / b.freq)
        * (1 / (1 + c.y ((cashflowTime b i : ℚ) : ℝ))
            ^ ((cashflowTime b i : ℚ) : ℝ)))) := by
  refine ⟨⟨fun hnone => ?_, fun hlt => ?_⟩, priceBond_eq c b⟩
  · by_contra hlt
    rw [priceBond_eq c b (by omega)] at hnone
    exact Option.noConfusion hnone
  · rw [priceBond, if_pos (by omega)]

/-- C1 witness: the 5-year semiannual bond has `n = 10 ≥ 1` cash flows and its
price against the sample curve is the stated sum. -/
theorem priceBond_spec_witness :
    1 ≤ cashflowCount bondOnGrid ∧
    priceBond wCurve bondOnGrid
      = some (∑ i in Finset.range (cashflowCount bondOnGrid).toNat,
          (if i = (cashflowCount bondOnGrid).toNat - 1
            then bondOnGrid.face * bondOnGrid.coupon_rate / bondOnGrid.freq + bondOnGrid.face
            else bondOnGrid.face * bondOnGrid.coupon_rate / bondOnGrid.freq)
          * (1 / (1 + wCurve.y ((cashflowTime bondOnGrid i : ℚ) : ℝ))
              ^ ((cashflowTime bondOnGrid i : ℚ) : ℝ))) :=
  have h : 1 ≤ cashflowCount bondOnGrid := by
    norm_num [cashflowCount, bondOnGrid, pyround]
  ⟨h, (priceBond_spec wCurve bondOnGrid).2 h⟩

/-- C2: when the base price is nonzero and the bump is nonzero,
`dv01_duration_convexity` returns the fixed-key record with
`dy = bp/10000`, the ±bp parallel-shocked prices, `DV01 = (pDn-pUp)/2`,
`modDuration = (pDn-pUp)/(2 p0 dy)` and
`convexity = (pDn+pUp-2 p0)/(p0 dy^2)`. -/
theorem riskMetrics_spec (c : YieldCurve) (b : Bond) (bp : ℝ) (p0 : ℝ)
    (h0 : priceBond c b = some p0) (hp : p0 ≠ 0) (hbp : bp ≠ 0) :
    ∃ pUp pDn,
      priceBond (shockParallel c bp) b = some pUp ∧
      priceBond (shockParallel c (-bp)) b = some pDn ∧
      dv01DurationConvexity c b bp = some
        { price := p0
          price_up := pUp
          price_dn := pDn
          dv01 := (pDn - pUp) / 2
          mod_duration := (pDn - pUp) / (2 * p0 * (bp / 10000))
          convexity := (pDn + pUp - 2 * p0) / (p0 * (bp / 10000) ^ 2) } := by
  obtain ⟨pUp, hUp⟩ := priceBond_some (shockParallel c bp) c b p0 h0
  obtain ⟨pDn, hDn⟩ := priceBond_some (shockParallel c (-bp)) c b p0 h0
  refine ⟨pUp, pDn, hUp, hDn, ?_⟩
  simp only [dv01DurationConvexity, h0, hUp, hDn, bpToDecimal, Option.some_bind,
    Option.map_some']

/-- C2 witness: the one-year zero-coupon bond against the one-node 4% curve
prices to `1250/13 ≠ 0`, and the risk record exists with the stated fields. -/
theorem riskMetrics_spec_witness :
    priceBond singleNodeCurve bondZero = some (1250 / 13) ∧
    (1250 / 13 : ℝ) ≠ 0 ∧ (1 : ℝ) ≠ 0 ∧
    ∃ pUp pDn,
      priceBond (shockParallel singleNodeCurve 1) bondZero = some pUp ∧
      priceBond (shockParallel singleNodeCurve (-1)) bondZero = some pDn ∧
      dv01DurationConvexity singleNodeCurve bondZero 1 = some
        { price := (1250 / 13 : ℝ)
          price_up := pUp
          price_dn := pDn
          dv01 := (pDn - pUp) / 2
          mod_duration := (pDn - pUp) / (2 * (1250 / 13) * ((1 : ℝ) / 10000))
          convexity := (pDn + pUp - 2 * (1250 / 13)) / ((1250 / 13) * ((1 : ℝ) / 10000) ^ 2) } :=
  have hcount : cashflowCount bondZero = 1 := by
    norm_num [cashflowCount, bondZero, pyround]
  have h0 : priceBond singleNodeCurve bondZero = some (1250 / 13) := by
    have ht : ((cashflowTime bondZero 0 : ℚ) : ℝ) = 1 := by
      norm_num [cashflowTime, bondZero]
    have hy : singleNodeCurve.y 1 = 1 / 25 := by
      simp [YieldCurve.y, singleNodeCurve, npLast, interpPts]
    rw [priceBond_eq _ _ hcount.ge, hcount]
    have h1 : (1 : ℤ).toNat = 1 := rfl
    rw [h1, Finset.sum_range_one, if_pos (by norm_num), ht, hy, Real.rpow_one]
    norm_num [bondZero]
  ⟨h0, by norm_num, by norm_num,
    riskMetrics_spec singleNodeCurve bondZero 1 (1250 / 13) h0 (by norm_num) (by norm_num)⟩

/-- C10 witness: the amended statement instantiated at the on-grid 5-year
semiannual bond: `maturity_years * freq = 10` is an integer and the last
cash-flow time is exactly 5 years. -/
theorem last_time_on_grid_exact_witness :
    0 < bondOnGrid.maturity_years ∧ 1 ≤ bondOnGrid.freq ∧
    bondOnGrid.maturity_years * (bondOnGrid.freq : ℚ) = ((10 : ℤ) : ℚ) ∧
    (cashflowTimes bondOnGrid).getLast? = some bondOnGrid.maturity_years :=
  have h1 : 0 < bondOnGrid.maturity_years := by norm_num [bondOnGrid]
  have h2 : 1 ≤ bondOnGrid.freq := by norm_num [bondOnGrid]
  have h3 : bondOnGrid.maturity_years * (bondOnGrid.freq : ℚ) = ((10 : ℤ) : ℚ) := by
    norm_num [bondOnGrid]
  ⟨h1, h2, h3, last_time_on_grid_exact bondOnGrid h1 h2 10 h3⟩

lemma headI_le_npLast : ∀ (l : List ℝ), l ≠ [] → l.Chain' (· < ·) →
    l.headI ≤ npLast l
  | [x], _, _ => by simp [npLast]
  | x :: y :: ys, _, hch => by
    have hxy : x < y := (List.chain'_cons.mp hch).1
    have htl := (List.chain'_cons.mp hch).2
    have hy := headI_le_npLast (y :: ys) (by simp) htl
    have hl : npLast (x :: y :: ys) = npLast (y :: ys) := by simp [npLast]
    simp only [List.headI] at hy ⊢
    rw [hl]
    exact le_trans hxy.le hy

lemma headI_le_get : ∀ (l : List ℝ), l.Chain' (· < ·) →
    ∀ (i : ℕ) (hi : i < l.length), l.headI ≤ l.get ⟨i, hi⟩
  | x :: xs, _, 0, _ => by simp
  | x :: xs, hch, j + 1, hi => by
    rw [List.chain'_iff_pairwise] at hch
    have hx : ∀ b ∈ xs, x < b := (List.pairwise_cons.mp hch).1
    have hj : j < xs.length := by
      simp at hi
      omega
    have hmem : xs.get ⟨j, hj⟩ ∈ xs := xs.get_mem _ _
    simpa using (hx _ hmem).le

lemma get_le_npLast : ∀ (l : List ℝ), l.Chain' (· < ·) →
    ∀ (i : ℕ) (hi : i < l.length), l.get ⟨i, hi⟩ ≤ npLast l
  | [x], _, 0, _ => by simp [npLast]
  | x :: y :: ys, hch, 0, _ => by
    have hxy : x < y := (List.chain'_cons.mp hch).1
    have htl := (List.chain'_cons.mp hch).2
    have hy := headI_le_npLast (y :: ys) (by simp) htl
    have hl : npLast (x :: y :: ys) = npLast (y :: ys) := by simp [npLast]
    rw [List.get]
    rw [hl]
    simp only [List.headI] at hy
    exact le_trans hxy.le hy
  | x :: y :: ys, hch, j + 1, hi => by
    have htl := (List.chain'_cons.mp hch).2
    have hj : j < (y :: ys).length := by
      simp at hi
      simpa using hi
    have h := get_le_npLast (y :: ys) htl j hj
    have hl : npLast (x :: y :: ys) = npLast (y :: ys) := by simp [npLast]
    rw [hl]
    exact h

/-- C4: `yieldAt` never extrapolates: a query at or below the shortest
maturity evaluates like the shortest node's maturity, and a query at or
above the longest like the longest node's, under both methods (the query is
clamped into `[maturities[0], maturities[-1]]` before evaluation). -/
theorem yieldAt_clamped_extrapolation (c : YieldCurve) (hne : c.maturities ≠ [])
    (hch : c.maturities.Chain' (· < ·)) (t : ℝ) :
    (t ≤ c.maturities.headI → c.y t = c.y c.maturities.headI) ∧
    (npLast c.maturities ≤ t → c.y t = c.y (npLast c.maturities)) := by
  have hball := headI_le_npLast c.maturities hne hch
  constructor
  · intro h
    have h1 : min (max t c.maturities.headI) (npLast c.maturities)
        = c.maturities.headI := by
      rw [max_eq_right h, min_eq_left hball]
    have h2 : min (max c.maturities.headI c.maturities.headI) (npLast c.maturities)
        = c.maturities.headI := by
      rw [max_self, min_eq_left hball]
    simp only [YieldCurve.y, h1, h2]
  · intro h
    have h0t : c.maturities.headI ≤ t := le_trans hball h
    have h1 : min (max t c.maturities.headI) (npLast c.maturities)
        = npLast c.maturities := by
      rw [max_eq_left h0t, min_eq_right h]
    have h2 : min (max (npLast c.maturities) c.maturities.headI) (npLast c.maturities)
        = npLast c.maturities := by
      rw [max_eq_left hball, min_self]
    simp only [YieldCurve.y, h1, h2]

/-- C4 witness: on the concrete two-node curve, a query at 0 (below 1y)
matches the short end and a query at 100 (above 2y) matches the long end. -/
theorem yieldAt_clamped_extrapolation_witness :
    wCurve.maturities ≠ [] ∧ wCurve.maturities.Chain' (· < ·) ∧
    wCurve.y 0 = wCurve.y wCurve.maturities.headI ∧
    wCurve.y 100 = wCurve.y (npLast wCurve.maturities) :=
  have hne : wCurve.maturities ≠ [] := by simp [wCurve]
  have hch : wCurve.maturities.Chain' (· < ·) := by
    norm_num [wCurve, List.chain'_cons]
  ⟨hne, hch,
    (yieldAt_clamped_extrapolation wCurve hne hch 0).1 (by norm_num [wCurve]),
    (yieldAt_clamped_extrapolation wCurve hne hch 100).2 (by norm_num [wCurve, npLast])⟩

lemma chain'_head_lt {α : Type} (f : α → ℝ) :
    ∀ (x : α) (xs : List α), (x :: xs).Chain' (fun p q => f p < f q) →
      ∀ (j : ℕ) (hj : j < xs.length), f x < f (xs.get ⟨j, hj⟩)
  | _, y :: _, hch, 0, _ => (List.chain'_cons.mp hch).1
  | x, y :: ys, hch, j + 1, hj => by
    have h1 : f x < f y := (List.chain'_cons.mp hch).1
    have h2 := chain'_head_lt f y ys (List.chain'_cons.mp hch).2 j (by simpa using hj)
    exact lt_trans h1 h2

lemma chain'_zip_left {α β : Type} {R : α → α → Prop} :
    ∀ (l : List α) (m : List β), l.Chain' R →
      (l.zip m).Chain' (fun a b => R a.1 b.1)
  | [], _, _ => by simp
  | _ :: _, [], _ => by simp
  | [_], _ :: _, _ => by simp
  | _ :: _ :: _, [_], _ => by simp
  | x :: x2 :: xs, b :: b2 :: bs, hch => by
    rw [List.zip_cons_cons, List.zip_cons_cons, List.chain'_cons]
    exact ⟨(List.chain'_cons.mp hch).1,
      by
        rw [← List.zip_cons_cons]
        exact chain'_zip_left (x2 :: xs) (b2 :: bs) (List.chain'_cons.mp hch).2⟩

lemma interpPts_node : ∀ (pts : List (ℝ × ℝ)),
    pts.Chain' (fun p q => p.1 < q.1) →
    ∀ (i : ℕ) (hi : i < pts.length),
      interpPts pts (pts.get ⟨i, hi⟩).1 = (pts.get ⟨i, hi⟩).2
  | [(_, _)], _, 0, _ => by simp [interpPts]
  | (x1, y1) :: (x2, y2) :: rest, hch, 0, _ => by
    simp only [List.get]
    rw [interpPts, if_pos le_rfl]
  | (x1, y1) :: (x2, y2) :: rest, hch, j + 1, hi => by
    have h12 : x1 < x2 := (List.chain'_cons.mp hch).1
    have htl := (List.chain'_cons.mp hch).2
    have hj : j < ((x2, y2) :: rest).length := by simpa using hi
    have hx1t : x1 < (((x2, y2) :: rest).get ⟨j, hj⟩).1 :=
      chain'_head_lt Prod.fst (x1, y1) ((x2, y2) :: rest) hch j hj
    cases j with
    | zero =>
      have hne : x2 - x1 ≠ 0 := sub_ne_zero.mpr h12.ne'
      simp only [List.get] at hx1t ⊢
      rw [interpPts, if_neg (not_le.mpr hx1t), if_pos le_rfl]
      field_simp
    | succ k =>
      have hk : k < rest.length := by simpa using hj
      have h2t : x2 < (rest.get ⟨k, hk⟩).1 :=
        chain'_head_lt Prod.fst (x2, y2) rest htl k hk
      have hrec := interpPts_node ((x2, y2) :: rest) htl (k + 1) hj
      simp only [List.get] at hx1t hrec ⊢
      rw [interpPts, if_neg (not_le.mpr hx1t), if_neg (not_le.mpr h2t)]
      exact hrec

lemma splineEvalSeg_node : ∀ (L : List ((ℝ × ℝ) × ℝ)),
    L.Chain' (fun a b => a.1.1 < b.1.1) →
    ∀ (i : ℕ) (hi : i < L.length),
      splineEvalSeg L (L.get ⟨i, hi⟩).1.1 = (L.get ⟨i, hi⟩).1.2
  | [((_, _), _)], _, 0, _ => by simp [splineEvalSeg]
  | ((x1, y1), m1) :: ((x2, y2), m2) :: rest, hch, 0, _ => by
    have h12 : x1 < x2 := (List.chain'_cons.mp hch).1
    have hne : x2 - x1 ≠ 0 := sub_ne_zero.mpr h12.ne'
    simp only [List.get]
    rw [splineEvalSeg, if_pos h12.le]
    field_simp
    ring
  | ((x1, y1), m1) :: ((x2, y2), m2) :: rest, hch, j + 1, hi => by
    have h12 : x1 < x2 := (List.chain'_cons.mp hch).1
    have htl := (List.chain'_cons.mp hch).2
    have hj : j < (((x2, y2), m2) :: rest).length := by simpa using hi
    cases j with
    | zero =>
      have hne : x2 - x1 ≠ 0 := sub_ne_zero.mpr h12.ne'
      simp only [List.get]
      rw [splineEvalSeg, if_pos le_rfl]
      field_simp
      ring
    | succ k =>
      have hk : k < rest.length := by simpa using hj
      have h2t : x2 < (rest.get ⟨k, hk⟩).1.1 :=
        chain'_head_lt (fun a => a.1.1) ((x2, y2), m2) rest htl k hk
      have hrec := splineEvalSeg_node (((x2, y2), m2) :: rest) htl (k + 1) hj
      simp only [List.get] at hrec ⊢
      rw [splineEvalSeg, if_neg (not_le.mpr h2t)]
      exact hrec

lemma interiorCoeffs_length : ∀ pts : List (ℝ × ℝ),
    (interiorCoeffs pts).length = pts.length - 2
  | [] => rfl
  | [_] => rfl
  | [_, _] => rfl
  | p :: q :: r :: rest => by
    rw [interiorCoeffs, List.length_cons, interiorCoeffs_length (q :: r :: rest)]
    simp

lemma interiorRhs_length : ∀ pts : List (ℝ × ℝ),
    (interiorRhs pts).length = pts.length - 2
  | [] => rfl
  | [_] => rfl
  | [_, _] => rfl
  | p :: q :: r :: rest => by
    rw [interiorRhs, List.length_cons, interiorRhs_length (q :: r :: rest)]
    simp

lemma thomasFwd_length : ∀ (eqns : List ((ℝ × ℝ × ℝ) × ℝ)) (cp dp : ℝ),
    (thomasFwd eqns cp dp).length = eqns.length
  | [], _, _ => rfl
  | ((a, b, cc), d) :: rest, cp, dp => by
    rw [thomasFwd]
    simp only [List.length_cons]
    rw [thomasFwd_length rest]

lemma thomasBackRev_length : ∀ (l : List (ℝ × ℝ)) (x : ℝ),
    (thomasBackRev l x).length = l.length
  | [], _ => rfl
  | (cp, dp) :: rest, x => by
    rw [thomasBackRev]
    simp only [List.length_cons]
    rw [thomasBackRev_length rest]

lemma thomasSolve_length (eqns : List ((ℝ × ℝ × ℝ) × ℝ)) :
    (thomasSolve eqns).length = eqns.length := by
  rw [thomasSolve, List.length_reverse, thomasBackRev_length, List.length_reverse,
    thomasFwd_length]

lemma splineM_length (pts : List (ℝ × ℝ)) :
    (splineM pts).length = (pts.length - 2) + 2 := by
  rw [splineM]
  simp [thomasSolve_length, List.length_zip, interiorCoeffs_length, interiorRhs_length]

/-- C3: at every node index, `yieldAt(maturities[i])` returns `yields[i]`
exactly, under both the linear and the cubic method. -/
theorem yieldAt_node_exact (c : YieldCurve)
    (hlen : c.maturities.length = c.yields.length)
    (hch : c.maturities.Chain' (· < ·))
    (i : ℕ) (hi : i < c.maturities.length) :
    c.y (c.maturities.getD i 0) = c.yields.getD i 0 := by
  have hiy : i < c.yields.length := hlen ▸ hi
  rw [List.getD_eq_getElem c.maturities 0 hi, List.getD_eq_getElem c.yields 0 hiy]
  have hpl : (c.maturities.zip c.yields).length = c.maturities.length := by
    rw [List.length_zip, hlen, min_self]
  have hip : i < (c.maturities.zip c.yields).length := by omega
  have hchp : (c.maturities.zip c.yields).Chain' (fun p q => p.1 < q.1) :=
    chain'_zip_left _ _ hch
  have hget : (c.maturities.zip c.yields).get ⟨i, hip⟩
      = (c.maturities[i], c.yields[i]) := by
    simp [List.getElem_zip]
  have hlb := headI_le_get c.maturities hch i hi
  have hub := get_le_npLast c.maturities hch i hi
  simp only [List.get_eq_getElem] at hlb hub
  have hclamp : min (max (c.maturities[i]) c.maturities.headI) (npLast c.maturities)
      = c.maturities[i] := by
    rw [max_eq_left hlb, min_eq_left hub]
  rcases hmeth : c.method with _ | _
  · have hnode := interpPts_node (c.maturities.zip c.yields) hchp i hip
    rw [hget] at hnode
    simp only [YieldCurve.y, hmeth, hclamp]
    exact hnode
  · have hLlen : ((c.maturities.zip c.yields).zip
        (splineM (c.maturities.zip c.yields))).length
        = (c.maturities.zip c.yields).length := by
      rw [List.length_zip, splineM_length]
      omega
    have hiL : i < ((c.maturities.zip c.yields).zip
        (splineM (c.maturities.zip c.yields))).length := by omega
    have hchL : ((c.maturities.zip c.yields).zip
        (splineM (c.maturities.zip c.yields))).Chain'
          (fun a b => a.1.1 < b.1.1) :=
      chain'_zip_left _ _ hchp
    have hiM : i < (splineM (c.maturities.zip c.yields)).length := by
      rw [splineM_length]
      omega
    have hgetL : ((c.maturities.zip c.yields).zip
        (splineM (c.maturities.zip c.yields))).get ⟨i, hiL⟩
        = ((c.maturities[i], c.yields[i]),
            (splineM (c.maturities.zip c.yields))[i]) := by
      simp [List.getElem_zip]
    have hnode := splineEvalSeg_node _ hchL i hiL
    rw [hgetL] at hnode
    simp only [YieldCurve.y, hmeth, hclamp]
    exact hnode

/-- A two-node curve fitted with the natural cubic spline. -/
noncomputable def wCurveCubic : YieldCurve :=
  ⟨["1Y", "2Y"], [1, 2], [3 / 100, 7 / 200], .cubic⟩

/-- C3 witness: node exactness evaluated at node 1 of the concrete cubic
curve (and the linear case is covered by the same theorem at `wCurve`). -/
theorem yieldAt_node_exact_witness :
    (wCurveCubic.maturities.length = wCurveCubic.yields.length ∧
      wCurveCubic.maturities.Chain' (· < ·) ∧ 1 < wCurveCubic.maturities.length ∧
      wCurveCubic.y (wCurveCubic.maturities.getD 1 0) = wCurveCubic.yields.getD 1 0) ∧
    (wCurve.maturities.length = wCurve.yields.length ∧
      wCurve.maturities.Chain' (· < ·) ∧ 0 < wCurve.maturities.length ∧
      wCurve.y (wCurve.maturities.getD 0 0) = wCurve.yields.getD 0 0) :=
  have hl1 : wCurveCubic.maturities.length = wCurveCubic.yields.length := by
    simp [wCurveCubic]
  have hc1 : wCurveCubic.maturities.Chain' (· < ·) := by
    norm_num [wCurveCubic, List.chain'_cons]
  have hi1 : 1 < wCurveCubic.maturities.length := by simp [wCurveCubic]
  have hl2 : wCurve.maturities.length = wCurve.yields.length := by simp [wCurve]
  have hc2 : wCurve.maturities.Chain' (· < ·) := by
    norm_num [wCurve, List.chain'_cons]
  have hi2 : 0 < wCurve.maturities.length := by simp [wCurve]
  ⟨⟨hl1, hc1, hi1, yieldAt_node_exact wCurveCubic hl1 hc1 1 hi1⟩,
    ⟨hl2, hc2, hi2, yieldAt_node_exact wCurve hl2 hc2 0 hi2⟩⟩

lemma zipWith_addmul_sub (k : ℝ) : ∀ (ys ws : List ℝ), ws.length = ys.length →
    List.zipWith (fun a b => a - b)
        (List.zipWith (fun yi wi => yi + k * wi) ys ws) ys
      = ws.map (fun w => k * w)
  | [], [], _ => rfl
  | [], _ :: _, h => by simp at h
  | _ :: _, [], h => by simp at h
  | y :: ys, w :: ws, h => by
    simp only [List.zipWith_cons_cons, List.map_cons]
    rw [zipWith_addmul_sub k ys ws (by simpa using h)]
    congr 1
    ring

lemma sum_map_sub_const : ∀ (l : List ℝ) (c : ℝ),
    (l.map (fun x => x - c)).sum = l.sum - l.length * c
  | [], _ => by simp
  | x :: xs, c => by
    simp only [List.map_cons, List.sum_cons, List.length_cons]
    rw [sum_map_sub_const xs c]
    push_cast
    ring

lemma sum_map_mul_const : ∀ (l : List ℝ) (k : ℝ),
    (l.map (fun x => k * x)).sum = k * l.sum
  | [], _ => by simp
  | x :: xs, k => by
    simp only [List.map_cons, List.sum_cons]
    rw [sum_map_mul_const xs k]
    ring

lemma mean_map_mul (k : ℝ) (l : List ℝ) :
    mean (l.map (fun x => k * x)) = k * mean l := by
  rw [mean, mean, sum_map_mul_const, List.length_map, mul_div_assoc]

lemma mean_map_sub_mean (l : List ℝ) (hne : l ≠ []) :
    mean (l.map (fun x => x - mean l)) = 0 := by
  have hn : (l.length : ℝ) ≠ 0 := by
    have := List.length_pos.mpr hne
    positivity
  rw [mean, sum_map_sub_const, List.length_map, mean]
  field_simp

lemma mean_shift_diffs (k : ℝ) (ys w1 : List ℝ)
    (hlen : w1.length = ys.length) (hne : w1 ≠ []) :
    mean (List.zipWith (fun a b => a - b)
        (List.zipWith (fun yi wi => yi + k * wi) ys
          (w1.map (fun x => x - mean w1))) ys)
      = 0 := by
  rw [zipWith_addmul_sub k ys _ (by simpa using hlen)]
  rw [mean_map_mul, mean_map_sub_mean w1 hne, mul_zero]

/-- C6: the butterfly shock's per-node yield changes have mean exactly zero
(the bell weight is re-centered to zero mean before scaling by `bp/10000`). -/
theorem butterfly_zero_mean (c : YieldCurve) (bp : ℝ)
    (hlen : c.maturities.length = c.yields.length)
    (h2 : 2 ≤ c.maturities.length)
    (hch : c.maturities.Chain' (· < ·)) :
    mean (List.zipWith (fun a b => a - b)
      (shockButterfly c bp).yields c.yields) = 0 := by
  simp only [shockButterfly]
  apply mean_shift_diffs
  · simp [hlen]
  · have : c.maturities ≠ [] := by
      intro hnil
      rw [hnil] at h2
      simp at h2
    simp [this]

/-- C6 witness: the butterfly zero-mean property evaluated on the concrete
two-node curve with a 50 bp shock. -/
theorem butterfly_zero_mean_witness :
    wCurve.maturities.length = wCurve.yields.length ∧
    2 ≤ wCurve.maturities.length ∧ wCurve.maturities.Chain' (· < ·) ∧
    mean (List.zipWith (fun a b => a - b)
      (shockButterfly wCurve 50).yields wCurve.yields) = 0 :=
  have hlen : wCurve.maturities.length = wCurve.yields.length := by simp [wCurve]
  have h2 : 2 ≤ wCurve.maturities.length := by simp [wCurve]
  have hch : wCurve.maturities.Chain' (· < ·) := by
    norm_num [wCurve, List.chain'_cons]
  ⟨hlen, h2, hch, butterfly_zero_mean wCurve 50 hlen h2 hch⟩

lemma interpPts_shift (d : ℝ) : ∀ (pts : List (ℝ × ℝ)), pts ≠ [] → ∀ t,
    interpPts (pts.map (fun p => (p.1, p.2 + d))) t = interpPts pts t + d
  | [(x1, y1)], _, t => by simp [interpPts]
  | (x1, y1) :: (x2, y2) :: rest, _, t => by
    simp only [List.map_cons, interpPts]
    by_cases h1 : t ≤ x1
    · simp [h1]
    · by_cases h2 : t ≤ x2
      · simp only [if_neg h1, if_pos h2]
        ring
      · simp only [if_neg h1, if_neg h2]
        have hrec := interpPts_shift d ((x2, y2) :: rest) (by simp) t
        simpa using hrec

lemma interiorCoeffs_shift (d : ℝ) : ∀ (pts : List (ℝ × ℝ)),
    interiorCoeffs (pts.map (fun p => (p.1, p.2 + d))) = interiorCoeffs pts
  | [] => rfl
  | [_] => rfl
  | [_, _] => rfl
  | (x0, y0) :: (x1, y1) :: (x2, y2) :: rest => by
    simp only [List.map_cons, interiorCoeffs]
    rw [List.cons.injEq]
    refine ⟨rfl, ?_⟩
    have hrec := interiorCoeffs_shift d ((x1, y1) :: (x2, y2) :: rest)
    simpa using hrec

lemma interiorRhs_shift (d : ℝ) : ∀ (pts : List (ℝ × ℝ)),
    interiorRhs (pts.map (fun p => (p.1, p.2 + d))) = interiorRhs pts
  | [] => rfl
  | [_] => rfl
  | [_, _] => rfl
  | (x0, y0) :: (x1, y1) :: (x2, y2) :: rest => by
    simp only [List.map_cons, interiorRhs]
    rw [List.cons.injEq]
    constructor
    · ring
    · have hrec := interiorRhs_shift d ((x1, y1) :: (x2, y2) :: rest)
      simpa using hrec

lemma splineM_shift (d : ℝ) (pts : List (ℝ × ℝ)) :
    splineM (pts.map (fun p => (p.1, p.2 + d))) = splineM pts := by
  rw [splineM, splineM, interiorCoeffs_shift, interiorRhs_shift]

lemma splineEvalSeg_shift (d : ℝ) : ∀ (L : List ((ℝ × ℝ) × ℝ)), L ≠ [] →
    L.Chain' (fun a b => a.1.1 < b.1.1) → ∀ t,
      splineEvalSeg (L.map (fun a => ((a.1.1, a.1.2 + d), a.2))) t
        = splineEvalSeg L t + d
  | [((x1, y1), m1)], _, _, t => by simp [splineEvalSeg]
  | ((x1, y1), m1) :: ((x2, y2), m2) :: rest, _, hch, t => by
    have h12 : x1 < x2 := (List.chain'_cons.mp hch).1
    have hne : x2 - x1 ≠ 0 := sub_ne_zero.mpr h12.ne'
    simp only [List.map_cons, splineEvalSeg]
    by_cases h2 : t ≤ x2
    · simp only [if_pos h2]
      field_simp
      ring
    · simp only [if_neg h2]
      have hrec := splineEvalSeg_shift d (((x2, y2), m2) :: rest) (by simp)
        (List.chain'_cons.mp hch).2 t
      simpa using hrec

/-- A parallel shock shifts the interpolated yield at every query point by
exactly `bp/10000`, under both methods. -/
lemma y_parallel_shift (c : YieldCurve) (bp : ℝ)
    (hlen : c.maturities.length = c.yields.length)
    (hch : c.maturities.Chain' (· < ·)) (hne : c.maturities ≠ []) (t : ℝ) :
    (shockParallel c bp).y t = c.y t + bpToDecimal bp := by
  have hmpos : 0 < c.maturities.length := List.length_pos.mpr hne
  have hptsl : (c.maturities.zip c.yields).length = c.maturities.length := by
    rw [List.length_zip, hlen, min_self]
  have hptsne : c.maturities.zip c.yields ≠ [] := by
    apply List.ne_nil_of_length_pos
    omega
  have hchp : (c.maturities.zip c.yields).Chain' (fun p q => p.1 < q.1) :=
    chain'_zip_left _ _ hch
  have hzip : c.maturities.zip (c.yields.map (fun yi => yi + bpToDecimal bp))
      = (c.maturities.zip c.yields).map (fun p => (p.1, p.2 + bpToDecimal bp)) := by
    rw [List.zip_map_right]
    rfl
  rcases hmeth : c.method with _ | _
  · simp only [YieldCurve.y, shockParallel, hmeth]
    rw [hzip]
    exact interpPts_shift _ _ hptsne _
  · simp only [YieldCurve.y, shockParallel, hmeth]
    rw [hzip, splineM_shift]
    have hLl : ((c.maturities.zip c.yields).zip
        (splineM (c.maturities.zip c.yields))).length
        = (c.maturities.zip c.yields).length := by
      rw [List.length_zip, splineM_length]
      omega
    have hLne : (c.maturities.zip c.yields).zip
        (splineM (c.maturities.zip c.yields)) ≠ [] := by
      apply List.ne_nil_of_length_pos
      omega
    have hchL : ((c.maturities.zip c.yields).zip
        (splineM (c.maturities.zip c.yields))).Chain'
          (fun a b => a.1.1 < b.1.1) :=
      chain'_zip_left _ _ hchp
    rw [List.zip_map_left]
    exact splineEvalSeg_shift _ _ hLne hchL _

/-- Strict antitonicity of the discounted cash-flow sum in a uniform yield
shift, for nonnegative coupons and a positive final principal flow. -/
lemma discount_sum_strict_anti (N : ℕ) (hN : 1 ≤ N) (coupon face : ℝ)
    (hcoupon : 0 ≤ coupon) (hface : 0 < face)
    (tv yv : ℕ → ℝ) (htv : ∀ i, i < N → 0 < tv i)
    (d1 d2 : ℝ) (hd : d1 < d2) (hpos : ∀ i, i < N → 0 < 1 + yv i + d1) :
    ∑ i in Finset.range N, (if i = N - 1 then coupon + face else coupon)
        * (1 / (1 + yv i + d2) ^ tv i)
      < ∑ i in Finset.range N, (if i = N - 1 then coupon + face else coupon)
        * (1 / (1 + yv i + d1) ^ tv i) := by
  have hdf : ∀ i, i < N →
      1 / (1 + yv i + d2) ^ tv i < 1 / (1 + yv i + d1) ^ tv i := by
    intro i hi
    have hb1 : 0 < 1 + yv i + d1 := hpos i hi
    have hb2 : 1 + yv i + d1 < 1 + yv i + d2 := by linarith
    have hp : (1 + yv i + d1) ^ tv i < (1 + yv i + d2) ^ tv i :=
      Real.rpow_lt_rpow hb1.le hb2 (htv i hi)
    exact one_div_lt_one_div_of_lt (Real.rpow_pos_of_pos hb1 _) hp
  apply Finset.sum_lt_sum
  · intro i hi
    have hi' := Finset.mem_range.mp hi
    have hcf : 0 ≤ (if i = N - 1 then coupon + face else coupon) := by
      split_ifs
      · linarith
      · exact hcoupon
    exact mul_le_mul_of_nonneg_left (hdf i hi').le hcf
  · refine ⟨N - 1, Finset.mem_range.mpr (by omega), ?_⟩
    rw [if_pos rfl]
    exact mul_lt_mul_of_pos_left (hdf (N - 1) (by omega)) (by linarith)

/-- C7: for a valid curve and a plain bond (positive face, nonnegative
coupon, at least one cash flow) and any `bp > 0` small enough that the
down-shocked discount bases stay positive, the price is strictly antitone in
a parallel shift: `price(+bp) < price(base) < price(-bp)`. -/
theorem price_parallel_antitone (c : YieldCurve) (b : Bond) (bp : ℝ)
    (hlen : c.maturities.length = c.yields.length)
    (hch : c.maturities.Chain' (· < ·)) (hne : c.maturities ≠ [])
    (hface : 0 < b.face) (hcoupon : 0 ≤ b.coupon_rate)
    (hn : 1 ≤ cashflowCount b) (hbp : 0 < bp)
    (hpos : ∀ t ∈ cashflowTimes b, 0 < 1 + c.y ((t : ℚ) : ℝ) - bp / 10000) :
    ∃ pU p0 pD,
      priceBond (shockParallel c bp) b = some pU ∧
      priceBond c b = some p0 ∧
      priceBond (shockParallel c (-bp)) b = some pD ∧
      pU < p0 ∧ p0 < pD := by
  have hN1 : 1 ≤ (cashflowCount b).toNat := by omega
  have hfreq : 1 ≤ b.freq := by
    by_contra hf
    have hf0 : b.freq = 0 := by omega
    have h0 : cashflowCount b = 0 := by
      rw [cashflowCount, hf0]
      norm_num [pyround]
    omega
  have hfreqQ : (0 : ℚ) < (b.freq : ℚ) := by
    exact_mod_cast Nat.lt_of_lt_of_le Nat.zero_lt_one hfreq
  have htv : ∀ i, i < (cashflowCount b).toNat →
      0 < ((cashflowTime b i : ℚ) : ℝ) := by
    intro i _
    have hq : (0 : ℚ) < cashflowTime b i := by
      rw [cashflowTime]
      apply div_pos _ hfreqQ
      positivity
    exact_mod_cast hq
  have hposI : ∀ i, i < (cashflowCount b).toNat →
      0 < 1 + c.y ((cashflowTime b i : ℚ) : ℝ) - bp / 10000 := by
    intro i hi
    apply hpos
    rw [cashflowTimes]
    exact List.mem_map_of_mem _ (List.mem_range.mpr hi)
  have hcoup : 0 ≤ b.face * b.coupon_rate / (b.freq : ℝ) := by positivity
  have hshift : ∀ bp' : ℝ, ∀ i,
      (shockParallel c bp').y ((cashflowTime b i : ℚ) : ℝ)
        = c.y ((cashflowTime b i : ℚ) : ℝ) + bp' / 10000 := by
    intro bp' i
    rw [y_parallel_shift c bp' hlen hch hne, bpToDecimal]
  refine ⟨_, _, _, priceBond_eq _ b hn, priceBond_eq _ b hn, priceBond_eq _ b hn,
    ?_, ?_⟩
  · have hU : (∑ i in Finset.range (cashflowCount b).toNat,
        (if i = (cashflowCount b).toNat - 1
          then b.face * b.coupon_rate / b.freq + b.face
          else b.face * b.coupon_rate / b.freq)
        * (1 / (1 + (shockParallel c bp).y ((cashflowTime b i : ℚ) : ℝ))
            ^ ((cashflowTime b i : ℚ) : ℝ)))
        = ∑ i in Finset.range (cashflowCount b).toNat,
        (if i = (cashflowCount b).toNat - 1
          then b.face * b.coupon_rate / b.freq + b.face
          else b.face * b.coupon_rate / b.freq)
        * (1 / (1 + c.y ((cashflowTime b i : ℚ) : ℝ) + bp / 10000)
            ^ ((cashflowTime b i : ℚ) : ℝ)) := by
      refine Finset.sum_congr rfl (fun i _ => ?_)
      rw [hshift bp i, add_assoc]
    have h0 : (∑ i in Finset.range (cashflowCount b).toNat,
        (if i = (cashflowCount b).toNat - 1
          then b.face * b.coupon_rate / b.freq + b.face
          else b.face * b.coupon_rate / b.freq)
        * (1 / (1 + c.y ((cashflowTime b i : ℚ) : ℝ))
            ^ ((cashflowTime b i : ℚ) : ℝ)))
        = ∑ i in Finset.range (cashflowCount b).toNat,
        (if i = (cashflowCount b).toNat - 1
          then b.face * b.coupon_rate / b.freq + b.face
          else b.face * b.coupon_rate / b.freq)
        * (1 / (1 + c.y ((cashflowTime b i : ℚ) : ℝ) + 0)
            ^ ((cashflowTime b i : ℚ) : ℝ)) := by
      refine Finset.sum_congr rfl (fun i _ => ?_)
      rw [add_zero]
    rw [hU, h0]
    exact discount_sum_strict_anti (cashflowCount b).toNat hN1
      (b.face * b.coupon_rate / b.freq) b.face hcoup hface
      (fun i => ((cashflowTime b i : ℚ) : ℝ))
      (fun i => c.y ((cashflowTime b i : ℚ) : ℝ)) htv 0 (bp / 10000)
      (by positivity)
      (fun i hi => by
        have := hposI i hi
        simpa using by linarith)
  · have hD : (∑ i in Finset.range (cashflowCount b).toNat,
        (if i = (cashflowCount b).toNat - 1
          then b.face * b.coupon_rate / b.freq + b.face
          else b.face * b.coupon_rate / b.freq)
        * (1 / (1 + (shockParallel c (-bp)).y ((cashflowTime b i : ℚ) : ℝ))
            ^ ((cashflowTime b i : ℚ) : ℝ)))
        = ∑ i in Finset.range (cashflowCount b).toNat,
        (if i = (cashflowCount b).toNat - 1
          then b.face * b.coupon_rate / b.freq + b.face
          else b.face * b.coupon_rate / b.freq)
        * (1 / (1 + c.y ((cashflowTime b i : ℚ) : ℝ) + (-(bp / 10000)))
            ^ ((cashflowTime b i : ℚ) : ℝ)) := by
      refine Finset.sum_congr rfl (fun i _ => ?_)
      rw [hshift (-bp) i, neg_div, ← add_assoc]
    have h0 : (∑ i in Finset.range (cashflowCount b).toNat,
        (if i = (cashflowCount b).toNat - 1
          then b.face * b.coupon_rate / b.freq + b.face
          else b.face * b.coupon_rate / b.freq)
        * (1 / (1 + c.y ((cashflowTime b i : ℚ) : ℝ))
            ^ ((cashflowTime b i : ℚ) : ℝ)))
        = ∑ i in Finset.range (cashflowCount b).toNat,
        (if i = (cashflowCount b).toNat - 1
          then b.face * b.coupon_rate / b.freq + b.face
          else b.face * b.coupon_rate / b.freq)
        * (1 / (1 + c.y ((cashflowTime b i : ℚ) : ℝ) + 0)
            ^ ((cashflowTime b i : ℚ) : ℝ)) := by
      refine Finset.sum_congr rfl (fun i _ => ?_)
      rw [add_zero]
    rw [hD, h0]
    exact discount_sum_strict_anti (cashflowCount b).toNat hN1
      (b.face * b.coupon_rate / b.freq) b.face hcoup hface
      (fun i => ((cashflowTime b i : ℚ) : ℝ))
      (fun i => c.y ((cashflowTime b i : ℚ) : ℝ)) htv (-(bp / 10000)) 0
      (by
        have hq : 0 < bp / 10000 := by positivity
        linarith)
      (fun i hi => by
        have := hposI i hi
        simpa using by linarith)

/-- C7 witness: the monotone price-yield relation evaluated for the one-year
zero-coupon bond against the one-node 4% curve with a 1 bp shock. -/
theorem price_parallel_antitone_witness :
    (∀ t ∈ cashflowTimes bondZero,
      0 < 1 + singleNodeCurve.y ((t : ℚ) : ℝ) - 1 / 10000) ∧
    ∃ pU p0 pD,
      priceBond (shockParallel singleNodeCurve 1) bondZero = some pU ∧
      priceBond singleNodeCurve bondZero = some p0 ∧
      priceBond (shockParallel singleNodeCurve (-1)) bondZero = some pD ∧
      pU < p0 ∧ p0 < pD := by
  have hcount : cashflowCount bondZero = 1 := by
    norm_num [cashflowCount, bondZero, pyround]
  have hy : singleNodeCurve.y 1 = 1 / 25 := by
    simp [YieldCurve.y, singleNodeCurve, npLast, interpPts]
  have htimes : cashflowTimes bondZero = [1] := by
    rw [cashflowTimes, hcount]
    rw [show ((1 : ℤ).toNat) = 1 from rfl, List.range_succ, List.range_zero,
      List.nil_append, List.map_cons, List.map_nil]
    norm_num [cashflowTime, bondZero]
  have hpos : ∀ t ∈ cashflowTimes bondZero,
      0 < 1 + singleNodeCurve.y ((t : ℚ) : ℝ) - 1 / 10000 := by
    intro t ht
    rw [htimes] at ht
    simp only [List.mem_singleton] at ht
    subst ht
    rw [show (((1 : ℚ)) : ℝ) = 1 by norm_num, hy]
    norm_num
  exact ⟨hpos, price_parallel_antitone singleNodeCurve bondZero 1
    (by simp [singleNodeCurve]) (by simp [singleNodeCurve])
    (by simp [singleNodeCurve]) (by norm_num [bondZero]) (by norm_num [bondZero])
    hcount.ge (by norm_num) hpos⟩

end YieldSim
